import Mathlib

/-!
Shallow embedding of the LambdaCore interpreter core
(src/src/lcore.rs: value model, Environment, parse-to-IR converter,
stack-machine evaluator) and its builtin registry (src/src/builtin.rs).

Modelling conventions:
* Rust `HashMap<String, Value>` scope frames are modelled extensionally as
  association lists (`SymTab`): insertion replaces an existing binding of the
  same key, lookup finds the unique binding.
* The Rust `Vec` of scopes keeps the innermost scope at the *end*; here the
  innermost scope is the *head* of the list, so `push`/`pop`/iteration
  `rev()` all act on the head.
* Rust process aborts (`panic!` via `unwrap`/`expect`/`assert!`/
  `unreachable!`/index out of bounds, and `exit` via `crash`/`quit`) are not
  recoverable by any LambdaCore program; they are modelled by the `Abort`
  outcome, kept distinct from the recoverable `LCoreError` channel used by
  the builtins in builtin.rs.
* `f64` payloads are carried opaquely (`F64` wraps the source lexeme);
  no claim under verification depends on floating-point arithmetic, and IEEE
  semantics are out of scope, so float addition is recorded symbolically.
* Native function pointers (`Value::Func { f }`) are modelled by the finite
  enumeration `BuiltinF` of the native callables registered by
  `import_builtins` in builtin.rs.
-/

namespace LambdaCore

/-- Opaque stand-in for Rust `f64`: the converter stores the numeric lexeme.
No verified claim depends on float values or float arithmetic. -/
structure F64 where
  lit : String
deriving DecidableEq, Repr

/-- The native callables registered by `import_builtins` (builtin.rs).
Rust compares `Value::Func` by function pointer; distinct builtins have
distinct pointers, and `quit`/`exit` share the single `lcore_quit` pointer,
hence a single constructor. -/
inductive BuiltinF where
  | printF | prinF | addF | quitF | setF | loopF | defnF | getF
  | dictF | lenF | importF | swapF | toStrF | eqF | neqF | orF
deriving DecidableEq, Repr

/-- The `Value` enum of lcore.rs. The dictionary variant is spelled `Dict`
as in builtin.rs (lcore.rs spells the same variant `Hash`); its `HashMap`
payload is modelled as an association list with distinct keys. -/
inductive Value where
  | Null : Value
  | Identifier : String → Value
  | Boolean : Bool → Value
  | Int : Int → Value
  | Float : F64 → Value
  | String : String → Value
  | Array : List Value → Value
  | Func : BuiltinF → Value
  | Quote : Value → Value
  | Dict : List (Value × Value) → Value
  | OpenFunc : Value
  | CloseFunc : Value
  | OpenBrace : Value
  | CloseBrace : Value
  | BackTick : Value
  | Comma : Value

/-- The recoverable error taxonomy. Its declaration lives in the newer
revision of lcore.rs that is not under src/; the exhaustive `match err`
in `lcore_loop` (builtin.rs lines 243-250) fixes exactly these four
constructors, each carrying a message. -/
inductive LCoreError where
  | LambdaCoreError : String → LCoreError
  | IndexError : String → LCoreError
  | ArgumentError : String → LCoreError
  | NameError : String → LCoreError
deriving DecidableEq, Repr

/-- Non-recoverable process terminations: `rPanic` for Rust panics
(`unwrap`, `expect`, `assert!`, `unreachable!`, out-of-bounds indexing,
remainder by zero), `crash` for `crash(msg)` = print + `exit(1)`
(lcore.rs lines 154-157), `exitZero` for `exit(0)` in `lcore_quit`, and
`outOfFuel` for host stack exhaustion of the unboundedly recursive
evaluator (the recursion-depth counter sanctioned by spec section 5). -/
inductive Abort where
  | rPanic : Abort
  | crash : String → Abort
  | exitZero : Abort
  | outOfFuel : Abort
deriving DecidableEq, Repr

/-- Failure channel of an evaluation step: either a recoverable
`LCoreError` result or a process abort. -/
inductive Fail where
  | lcErr : LCoreError → Fail
  | abort : Abort → Fail
deriving DecidableEq, Repr

/-- A scope frame: `HashMap<String, Value>` modelled as an association
list whose keys are distinct (insert replaces, lookup finds the binding). -/
abbrev SymTab := List (String × Value)

/-- `HashMap::insert`: replace the binding if the key is present,
otherwise add it. -/
def symtabInsert (t : SymTab) (key : String) (value : Value) : SymTab :=
  match t with
  | [] => [(key, value)]
  | (k, v) :: rest =>
      if k = key then (k, value) :: rest
      else (k, v) :: symtabInsert rest key value

/-- `HashMap::get`. -/
def symtabGet (t : SymTab) (key : String) : Option Value :=
  match t with
  | [] => none
  | (k, v) :: rest => if k = key then some v else symtabGet rest key

/-- The `Environment` of lcore.rs: a stack of scope frames. Innermost
frame at the head (the Rust `Vec` keeps it at the end). -/
structure Environment where
  scopes : List SymTab

/-- `Environment::new`. -/
def Environment.new : Environment := ⟨[]⟩

/-- `Environment::push`: append a new empty frame. -/
def Environment.push (e : Environment) : Environment :=
  ⟨[] :: e.scopes⟩

/-- `Environment::pop`: `self.scopes.pop().unwrap()` — remove and return
the innermost frame; `none` models the `unwrap` panic on an empty stack. -/
def Environment.pop (e : Environment) : Option (SymTab × Environment) :=
  match e.scopes with
  | [] => none
  | s :: rest => some (s, ⟨rest⟩)

/-- `Environment::insert`: `self.scopes.last_mut().unwrap()` — always
writes into the innermost frame; `none` models the `unwrap` panic on an
empty stack. -/
def Environment.insert (e : Environment) (key : String) (value : Value) :
    Option Environment :=
  match e.scopes with
  | [] => none
  | s :: rest => some ⟨symtabInsert s key value :: rest⟩

/-- `Environment::contains_key`: search every frame, innermost first. -/
def Environment.contains_key (e : Environment) (name : String) : Bool :=
  e.scopes.any fun s => (symtabGet s name).isSome

/-- `Environment::get`: search frames innermost to outermost
(`iter_mut().rev()`), returning the first binding found. -/
def Environment.get (e : Environment) (name : String) : Option Value :=
  e.scopes.findSome? fun s => symtabGet s name

/-- `Environment::extend`, used by `lcore_import` (builtin.rs line 449).
Modelled from the spec: the declaration is in the newer lcore.rs revision
not under src/; spec section 6 fixes it as extending the caller's global
Environment scope with the resulting bindings, purely additively.  The
global scope is the outermost frame (the last of the list here). -/
def Environment.extend (e : Environment) (kvs : List (String × Value)) :
    Environment :=
  match e.scopes.getLast? with
  | none => e
  | some g =>
      ⟨e.scopes.dropLast ++
        [kvs.foldl (fun t kv => symtabInsert t kv.1 kv.2) g]⟩

/-- The frame walk behind `Environment.setExisting`: replace the binding
in the innermost frame that contains the name, leave everything else. -/
def setScopesExisting (name : String) (v : Value) : List SymTab → List SymTab
  | [] => []
  | s :: rest =>
      if (symtabGet s name).isSome then symtabInsert s name v :: rest
      else s :: setScopesExisting name v rest

/-- Replace the value bound to `name` in the innermost frame that contains
it, modelling an assignment through the `&mut Value` handle returned by
`Environment::get` (used by `lcore_swap`).  If no frame contains `name`
the environment is returned unchanged (the caller only assigns after a
successful `get`). -/
def Environment.setExisting (e : Environment) (name : String) (v : Value) :
    Environment :=
  ⟨setScopesExisting name v e.scopes⟩

/-! ### Structural equality (the `Eq`/`Hash` contract of `Value`)

The Rust `Value` is used as a `HashMap` key and compared with `==`; the
impl lives in the newer lcore.rs revision not under src/.  Modelled from
the spec (section 8): scalars, Array, Dict and Quote compare structurally,
and `Func` values compare by identity, i.e. by which native callable they
reference.  One deliberate model simplification: `HashMap` equality is
content-based and iteration-order-insensitive, while `valueEq` compares
Dict payloads pairwise in list order; the two coincide on dictionaries
built by the same insertion sequence, and no verified claim depends on
comparing dictionaries. -/

mutual

def valueEq : Value → Value → Bool
  | .Null, .Null => true
  | .Identifier a, .Identifier b => a = b
  | .Boolean a, .Boolean b => a = b
  | .Int a, .Int b => a = b
  | .Float a, .Float b => a = b
  | .String a, .String b => a = b
  | .Array a, .Array b => valueListEq a b
  | .Func a, .Func b => a = b
  | .Quote a, .Quote b => valueEq a b
  | .Dict a, .Dict b => valuePairsEq a b
  | .OpenFunc, .OpenFunc => true
  | .CloseFunc, .CloseFunc => true
  | .OpenBrace, .OpenBrace => true
  | .CloseBrace, .CloseBrace => true
  | .BackTick, .BackTick => true
  | .Comma, .Comma => true
  | _, _ => false

def valueListEq : List Value → List Value → Bool
  | [], [] => true
  | x :: xs, y :: ys => valueEq x y && valueListEq xs ys
  | _, _ => false

def valuePairsEq : List (Value × Value) → List (Value × Value) → Bool
  | [], [] => true
  | p :: ps, q :: qs => valueEq p.1 q.1 && valueEq p.2 q.2 && valuePairsEq ps qs
  | _, _ => false

end

/-- Association-list lookup by `valueEq`-equal key. -/
def valueAssoc (k : Value) : List (Value × Value) → Option Value
  | [] => none
  | p :: rest => if valueEq k p.1 then some p.2 else valueAssoc k rest

/-- `HashMap::get` on a dictionary payload. -/
def dictGet (d : List (Value × Value)) (k : Value) : Option Value :=
  valueAssoc k d

/-- `HashMap::insert` on a dictionary payload: replace the value under an
equal key (the stored key is kept), otherwise add the pair. -/
def dictInsert (d : List (Value × Value)) (k v : Value) :
    List (Value × Value) :=
  match d with
  | [] => [(k, v)]
  | (k2, v2) :: rest =>
      if valueEq k2 k then (k2, v) :: rest
      else (k2, v2) :: dictInsert rest k v

/-- The `fmt::Debug` rendering of a value tag (lcore.rs lines 79-101),
used in builtin error messages built with `{:?}`. -/
def valueDebug : Value → String
  | .Null => "Null"
  | .Identifier _ => "Identifier"
  | .Boolean _ => "Boolean"
  | .Int _ => "Int"
  | .Float _ => "Float"
  | .String _ => "String"
  | .Array _ => "Array"
  | .OpenFunc => "("
  | .CloseFunc => ")"
  | .OpenBrace => "["
  | .CloseBrace => "]"
  | .Quote _ => "'"
  | .BackTick => "`"
  | .Comma => ","
  | .Func _ => "Func"
  | .Dict _ => "Hash"

/-- Two's-complement wrap-around of `i64` addition (release-build Rust
semantics). -/
def wrap64 (i : Int) : Int := (i + 2 ^ 63) % 2 ^ 64 - 2 ^ 63

/-- Symbolic placeholder for `f64` addition: IEEE arithmetic is out of
scope and no claim depends on it. -/
def floatAddSym (a b : F64) : F64 := ⟨a.lit ++ "+" ++ b.lit⟩

/-! ### Builtins (builtin.rs)

Every native callable receives the evaluated call arguments as one
`Value::Array` plus a mutable Environment handle, and returns
`Result<Value, LCoreError>`; the argument array's contents are passed here
directly as a `List Value`, and the possibly mutated environment is
returned alongside the result.  Rust panics inside a builtin are the
`.abort` outcomes. -/

/-- Result of a builtin or evaluator step: recoverable result plus the
environment after the call (meaningless after an `.abort`, which kills
the process). -/
abbrev BRes := Except Fail Value × Environment

/-- `lcore_print_value` (builtin.rs lines 8-135): errors on more than one
argument, panics (`unwrap`) on zero arguments, otherwise prints (console
effect, invisible to the value model) and returns Null. -/
def lcore_print_value (args : List Value) : Except Fail Value :=
  if args.length > 1 then
    .error (.lcErr (.ArgumentError "Can only print 1 value at a time right now."))
  else
    match args.head? with
    | none => .error (.abort .rPanic)
    | some _ => .ok .Null

/-- `lcore_print`: delegates to `lcore_print_value` and discards its
`Result` with `.ok()` (a panic still unwinds), then returns Null. -/
def lcore_print (args : List Value) (env : Environment) : BRes :=
  match lcore_print_value args with
  | .error (.abort a) => (.error (.abort a), env)
  | _ => (.ok .Null, env)

/-- `lcore_prin`: same as `lcore_print` minus the trailing newline. -/
def lcore_prin (args : List Value) (env : Environment) : BRes :=
  match lcore_print_value args with
  | .error (.abort a) => (.error (.abort a), env)
  | _ => (.ok .Null, env)

/-- `lcore_add` (builtin.rs lines 154-176): `expect` panics on missing
arguments; Int+Int and Float+Float, every other combination is
`unreachable!()`. -/
def lcore_add (args : List Value) (env : Environment) : BRes :=
  match args[0]?, args[1]? with
  | some a, some b =>
      match a, b with
      | .Int x, .Int y => (.ok (.Int (wrap64 (x + y))), env)
      | .Float x, .Float y => (.ok (.Float (floatAddSym x y)), env)
      | _, _ => (.error (.abort .rPanic), env)
  | _, _ => (.error (.abort .rPanic), env)

/-- `lcore_quit` (bound to both `quit` and `exit`): `exit(0)`. -/
def lcore_quit (_args : List Value) (env : Environment) : BRes :=
  (.error (.abort .exitZero), env)

/-- `lcore_set` (builtin.rs lines 185-215): binds a plain or quoted
identifier to the value in the innermost scope; any other first argument
is silently ignored; returns Null. -/
def lcore_set (args : List Value) (env : Environment) : BRes :=
  match args[0]?, args[1]? with
  | some var, some value =>
      match var with
      | .Identifier v =>
          match env.insert v value with
          | some e => (.ok .Null, e)
          | none => (.error (.abort .rPanic), env)
      | .Quote q =>
          match q with
          | .Identifier s =>
              match env.insert s value with
              | some e => (.ok .Null, e)
              | none => (.error (.abort .rPanic), env)
          | _ => (.error (.abort .rPanic), env)
      | _ => (.ok .Null, env)
  | _, _ => (.error (.abort .rPanic), env)

/-- `lcore_defn` (builtin.rs lines 258-296): stores
`Array [ParameterNames, Body]` under a plain or quoted identifier; the
body argument must be a Quote (`as_value`), any other name argument is
silently ignored; returns Null. -/
def lcore_defn (args : List Value) (env : Environment) : BRes :=
  match args[0]?, args[1]?, args[2]? with
  | some name, some arguments, some body =>
      match body with
      | .Quote bv =>
          let def_ := Value.Array [arguments, bv]
          match name with
          | .Identifier v =>
              match env.insert v def_ with
              | some e => (.ok .Null, e)
              | none => (.error (.abort .rPanic), env)
          | .Quote q =>
              match q with
              | .Identifier s =>
                  match env.insert s def_ with
                  | some e => (.ok .Null, e)
                  | none => (.error (.abort .rPanic), env)
              | _ => (.error (.abort .rPanic), env)
          | _ => (.ok .Null, env)
      | _ => (.error (.abort .rPanic), env)
  | _, _, _ => (.error (.abort .rPanic), env)

/-- `lcore_get` (builtin.rs lines 298-396).  One leading Quote on the key
is stripped.  Array with Int key: `index > len` is an ArgumentError,
otherwise the truncated remainder is taken and negatives shifted up
(remainder by zero on an empty array panics); Array with non-Int key is an
ArgumentError.  Dict: Identifier keys are canonicalised to String before
lookup; a missing key is an `expect` panic.  String with Int key prints a
marker and falls through to Null; everything else falls through to Null. -/
def lcore_get (args : List Value) (env : Environment) : BRes :=
  match args[0]?, args[1]? with
  | some obj, some key0 =>
      let key := match key0 with | .Quote q => q | _ => key0
      match obj with
      | .Array v =>
          match key with
          | .Int index =>
              if (v.length : Int) < index then
                (.error (.lcErr (.ArgumentError
                  ("Index out of bounds: got " ++ toString index ++
                   " but len is " ++ toString v.length))), env)
              else if v.length = 0 then (.error (.abort .rPanic), env)
              else
                let len : Int := v.length
                let r := Int.tmod index len
                let idx := if r < 0 then r + len else r
                match v[idx.toNat]? with
                | some x => (.ok x, env)
                | none => (.error (.abort .rPanic), env)
          | _ =>
              (.error (.lcErr (.ArgumentError
                ("Cannot index Array with " ++ valueDebug key))), env)
      | .Dict d =>
          match key with
          | .Identifier a =>
              match dictGet d (.String a) with
              | some x => (.ok x, env)
              | none => (.error (.abort .rPanic), env)
          | .String _ | .Int _ | .Float _ | .Boolean _ =>
              match dictGet d key with
              | some x => (.ok x, env)
              | none => (.error (.abort .rPanic), env)
          | _ => (.error (.abort .rPanic), env)
      | .String _ =>
          match key with
          | .Int _ => (.ok .Null, env)
          | _ => (.error (.abort .rPanic), env)
      | _ => (.ok .Null, env)
  | _, _ => (.error (.abort .rPanic), env)

/-- The key/value pairing loop of `lcore_dict` (builtin.rs lines 414-425):
a quoted identifier key is stored under its canonical `String` form, a
quoted non-identifier key is silently skipped, every other key is stored
as itself. -/
def dictBuildPairs : List Value → List (Value × Value) → List (Value × Value)
  | [], acc => acc
  | [_], acc => acc
  | k :: v :: rest, acc =>
      match k with
      | .Quote q =>
          match q with
          | .Identifier s => dictBuildPairs rest (dictInsert acc (.String s) v)
          | _ => dictBuildPairs rest acc
      | _ => dictBuildPairs rest (dictInsert acc k v)

/-- `lcore_dict` (builtin.rs lines 398-432): an odd argument count is an
ArgumentError, otherwise alternating key/value arguments build a Dict. -/
def lcore_dict (args : List Value) (env : Environment) : BRes :=
  if args.length % 2 ≠ 0 then
    (.error (.lcErr (.ArgumentError
      "ArgumentError: Odd number of arguments passed to \"dict\"")), env)
  else
    (.ok (.Dict (dictBuildPairs args [])), env)

/-- `lcore_import_file`.  Modelled from the spec: the function is declared
in repository code not under src/ (file loading, parsing and evaluation of
the imported program); spec section 6 fixes its contract as producing that
file's resulting top-level bindings.  The external file system holds no
files in this model, so no bindings result. -/
def lcore_import_file (_file : String) : List (String × Value) := []

/-- `lcore_import` (builtin.rs lines 434-453): a missing argument is an
ArgumentError; a String argument extends the environment with the imported
file's bindings; any other argument falls through to Null. -/
def lcore_import (args : List Value) (env : Environment) : BRes :=
  match args[0]? with
  | none =>
      (.error (.lcErr (.ArgumentError
        "ArgumentError: Not enough arguments on call to \"import\": 0/1")), env)
  | some (Value.String file) => (.ok .Null, env.extend (lcore_import_file file))
  | some _ => (.ok .Null, env)

/-- `lcore_len` (builtin.rs lines 585-609). Note: Rust takes the byte
length of a String, modelled here as the character count (all verified
programs are ASCII). -/
def lcore_len (args : List Value) (env : Environment) : BRes :=
  match args[0]? with
  | none =>
      (.error (.lcErr (.ArgumentError
        "ArgumentError: Not enough arguments on call to \"len\": 0/1")), env)
  | some arg =>
      match arg with
      | .Array v => (.ok (.Int v.length), env)
      | .Dict d => (.ok (.Int d.length), env)
      | .String s => (.ok (.Int s.length), env)
      | .Quote _ => (.ok (.Int 1), env)
      | _ =>
          (.error (.lcErr (.ArgumentError
            ("ArgumentError: " ++ valueDebug arg ++ " has no length"))), env)

/-- The comparison core of `lcore_equals` (builtin.rs lines 611-642):
structural comparison per matching constructor pair, recursion through
Quote, type mismatch is an ArgumentError.  The Func arm compares the
formatted stack addresses of the two distinct argument slots, which never
coincide, hence constant false. -/
def lcore_equals_val : Value → Value → Except Fail Value
  | .Null, .Null => .ok (.Boolean true)
  | .Int a, .Int b => .ok (.Boolean (a = b))
  | .Float a, .Float b => .ok (.Boolean (a = b))
  | .String a, .String b => .ok (.Boolean (a = b))
  | .Boolean a, .Boolean b => .ok (.Boolean (a = b))
  | .Identifier a, .Identifier b => .ok (.Boolean (a = b))
  | .Dict a, .Dict b => .ok (.Boolean (valueEq (.Dict a) (.Dict b)))
  | .Array a, .Array b => .ok (.Boolean (valueListEq a b))
  | .Quote a, .Quote b => lcore_equals_val a b
  | .Func _, .Func _ => .ok (.Boolean false)
  | a, b =>
      .error (.lcErr (.ArgumentError
        ("ArgumentError: Type mismatch (" ++ valueDebug a ++ " and " ++
         valueDebug b ++ ")")))

/-- `lcore_equals`: `unwrap` panics on missing arguments, then compares. -/
def lcore_equals (args : List Value) (env : Environment) : BRes :=
  match args[0]?, args[1]? with
  | some a, some b => (lcore_equals_val a b, env)
  | _, _ => (.error (.abort .rPanic), env)

/-- The comparison core of `lcore_not_equals` (builtin.rs lines 644-675),
the negation of `lcore_equals_val` arm by arm. -/
def lcore_not_equals_val : Value → Value → Except Fail Value
  | .Null, .Null => .ok (.Boolean false)
  | .Int a, .Int b => .ok (.Boolean (¬(a = b)))
  | .Float a, .Float b => .ok (.Boolean (¬(a = b)))
  | .String a, .String b => .ok (.Boolean (¬(a = b)))
  | .Boolean a, .Boolean b => .ok (.Boolean (¬(a = b)))
  | .Identifier a, .Identifier b => .ok (.Boolean (¬(a = b)))
  | .Dict a, .Dict b => .ok (.Boolean (!valueEq (.Dict a) (.Dict b)))
  | .Array a, .Array b => .ok (.Boolean (!valueListEq a b))
  | .Quote a, .Quote b => lcore_not_equals_val a b
  | .Func _, .Func _ => .ok (.Boolean true)
  | a, b =>
      .error (.lcErr (.ArgumentError
        ("ArgumentError: Type mismatch (" ++ valueDebug a ++ " and " ++
         valueDebug b ++ ")")))

/-- `lcore_not_equals`. -/
def lcore_not_equals (args : List Value) (env : Environment) : BRes :=
  match args[0]?, args[1]? with
  | some a, some b => (lcore_not_equals_val a b, env)
  | _, _ => (.error (.abort .rPanic), env)

/-- `lcore_logical_or` (builtin.rs lines 678-693). -/
def lcore_logical_or (args : List Value) (env : Environment) : BRes :=
  match args[0]?, args[1]? with
  | some a, some b =>
      match a, b with
      | .Boolean x, .Boolean y => (.ok (.Boolean (x || y)), env)
      | _, _ =>
          (.error (.lcErr (.ArgumentError
            ("ArgumentError: Not booleans (" ++ valueDebug a ++ " and " ++
             valueDebug b ++ ")"))), env)
  | _, _ => (.error (.abort .rPanic), env)

/-- `lcore_to_str` (builtin.rs lines 695-700). -/
def lcore_to_str (_args : List Value) (env : Environment) : BRes :=
  (.ok (.String "LambdaCore String!"), env)

/-- The indexed-assignment walk of `lcore_swap` (builtin.rs lines
496-573), as a functional rebuild of the in-place mutation through
`get_mut`: navigate through all indexers but the last, then assign at the
last.  Dict keys given as identifiers are canonicalised to String; a
missing Dict key is an `unwrap` panic; Array indices follow the same
bounds/wrapping discipline as `lcore_get`; a non-Int Array index is an
IndexError; navigating into a non-collection is `unreachable!()`. -/
def swapNav : Value → List Value → Value → Except Fail Value
  | obj, [ix], value =>
      match obj with
      | .Dict d =>
          let k := match ix with | .Identifier s => Value.String s | _ => ix
          match dictGet d k with
          | some _ => .ok (.Dict (dictInsert d k value))
          | none => .error (.abort .rPanic)
      | .Array v =>
          match ix with
          | .Int i =>
              if (v.length : Int) < i then
                .error (.lcErr (.ArgumentError
                  ("Index out of bounds: got " ++ toString i ++
                   " but len is " ++ toString v.length)))
              else if v.length = 0 then .error (.abort .rPanic)
              else
                let len : Int := v.length
                let r := Int.tmod i len
                let idx := if r < 0 then r + len else r
                .ok (.Array (v.set idx.toNat value))
          | _ =>
              .error (.lcErr (.IndexError
                "IndexError: Cannot index array with non-int"))
      | _ => .error (.abort .rPanic)
  | obj, ix :: rest, value =>
      match obj with
      | .Dict d =>
          let k := match ix with | .Identifier s => Value.String s | _ => ix
          match dictGet d k with
          | some inner =>
              match swapNav inner rest value with
              | .ok newInner => .ok (.Dict (dictInsert d k newInner))
              | .error e => .error e
          | none => .error (.abort .rPanic)
      | .Array v =>
          match ix with
          | .Int i =>
              if (v.length : Int) < i then
                .error (.lcErr (.ArgumentError
                  ("Index out of bounds: got " ++ toString i ++
                   " but len is " ++ toString v.length)))
              else if v.length = 0 then .error (.abort .rPanic)
              else
                let len : Int := v.length
                let r := Int.tmod i len
                let idx := if r < 0 then r + len else r
                match v[idx.toNat]? with
                | some inner =>
                    match swapNav inner rest value with
                    | .ok newInner => .ok (.Array (v.set idx.toNat newInner))
                    | .error e => .error e
                | none => .error (.abort .rPanic)
          | _ =>
              .error (.lcErr (.IndexError
                "IndexError: Cannot index array with non-int"))
      | _ => .error (.abort .rPanic)
  | _, [], _ => .error (.abort .rPanic)

/-- `lcore_swap` (builtin.rs lines 455-583): the target is a quoted
identifier resolved in the environment (silently skipped when unbound),
the indexer list is a quoted Array (an empty one hits the
`0..len() - 1` underflow panic of the debug build), and the navigated
assignment is written back through the mutable binding. -/
def lcore_swap (args : List Value) (env : Environment) : BRes :=
  match args[0]?, args[1]?, args[2]? with
  | some a0, some a1, some a2 =>
      match a0 with
      | .Quote (.Identifier objId) =>
          match env.get objId with
          | some obj =>
              match a1 with
              | .Quote (.Array ixs) =>
                  match ixs with
                  | [] => (.error (.abort .rPanic), env)
                  | _ =>
                      match swapNav obj ixs a2 with
                      | .ok newObj => (.ok .Null, env.setExisting objId newObj)
                      | .error e => (.error e, env)
              | _ => (.error (.abort .rPanic), env)
          | none => (.ok .Null, env)
      | _ => (.error (.abort .rPanic), env)
  | _, _, _ => (.error (.abort .rPanic), env)

/-! ### The stack-machine evaluator (lcore.rs `lcore_interpret`)

The evaluator consumes the IR queue from the front, maintaining its own
stack of in-progress frames.  Here frames keep their contents in source
order (append at the end, callee at the front), and the frame *stack*
keeps its top at the head (the Rust `Vec` keeps it at the end).

The evaluator re-enters itself for user-defined function bodies and
through the `loop` builtin; the `fuel` parameter is the explicit
recursion-depth counter sanctioned by spec section 5 for the host's
otherwise-uncontrolled call stack, decremented once per consumed token
(exhaustion is the `outOfFuel` abort, i.e. host-resource exhaustion). -/

/-- Append a value to the evaluator's current (top) frame;
`none` models the `arrays[length - 1]` panic on an empty frame stack. -/
def pushCurrent (frames : List (List Value)) (node : Value) :
    Option (List (List Value)) :=
  match frames with
  | [] => none
  | top :: rest => some ((top ++ [node]) :: rest)

/-- The parameter-binding loop of user-defined call dispatch (lcore.rs
lines 409-424): `while let Some(value) = v.pop()` consumes the evaluated
arguments from the *end* of the argument list (so `revArgs` is the
argument list reversed) while `arg_names[count]` walks the parameter
names from the front.  `none` models the panics: `arg_names[count]` out
of range (more arguments than parameters), a parameter that is not a
quoted identifier (`unreachable!()` / `as_identifier`), and
`Environment::insert` on an empty scope stack. -/
def bindArgs (names : List Value) (revArgs : List Value) (count : Nat)
    (env : Environment) : Option Environment :=
  match revArgs with
  | [] => some env
  | value :: restArgs =>
      match names[count]? with
      | none => none
      | some (.Quote q) =>
          match q with
          | .Identifier s =>
              match env.insert s value with
              | some e => bindArgs names restArgs (count + 1) e
              | none => none
          | _ => none
      | some _ => none

mutual

/-- One step of the evaluator loop of `lcore_interpret` (lcore.rs lines
274-518), dispatching on the front token, plus the final
`arrays.pop().unwrap()` / `v.pop().unwrap()` when the queue is empty
(which panics on an empty outermost frame — the empty-program case).
Every function of this block consumes one unit of fuel per layer; fuel
exhaustion is the host-resource abort. -/
def interpGo : Nat → List Value → List (List Value) → Environment → BRes
  | 0, _, _, env => (.error (.abort .outOfFuel), env)
  | fuel + 1, queue, frames, env =>
      match queue with
      | [] =>
          match frames with
          | [] => (.error (.abort .rPanic), env)
          | top :: _ =>
              match top.getLast? with
              | none => (.error (.abort .rPanic), env)
              | some v => (.ok v, env)
      | node :: rest =>
          match node with
          | .Identifier name =>
              match frames with
              | [] => (.error (.abort .rPanic), env)
              | top :: frest =>
                  match top.getLast? with
                  | some (.Quote _) =>
                      interpGo fuel rest
                        ((top.dropLast ++ [Value.Identifier name]) :: frest) env
                  | _ =>
                      if env.contains_key name then
                        match env.get name with
                        | some v => interpGo fuel rest ((top ++ [v]) :: frest) env
                        | none => (.error (.abort .rPanic), env)
                      else
                        (.error (.abort (.crash
                          ("Undefined Variable: No variable named \"" ++
                           name ++ "\""))), env)
          | .OpenFunc => interpGo fuel rest ([] :: frames) env
          | .CloseFunc =>
              match frames with
              | [] => (.error (.abort .rPanic), env)
              | top :: frest =>
                  match top with
                  | [] => (.error (.abort .rPanic), env)
                  | funcv :: callArgs =>
                      match dispatchCall fuel funcv callArgs env with
                      | (.ok ret, env') =>
                          match frest with
                          | [] => (.error (.abort .rPanic), env')
                          | t2 :: f2 =>
                              interpGo fuel rest ((t2 ++ [ret]) :: f2) env'
                      | (.error e, env') => (.error e, env')
          | .OpenBrace => interpGo fuel rest ([] :: frames) env
          | .CloseBrace =>
              match frames with
              | [] => (.error (.abort .rPanic), env)
              | top :: frest =>
                  match frest with
                  | [] => (.error (.abort .rPanic), env)
                  | t2 :: f2 =>
                      interpGo fuel rest ((t2 ++ [Value.Array top]) :: f2) env
          | .Func _ => interpGo fuel rest frames env
          | .Dict _ => interpGo fuel rest frames env
          | other =>
              match pushCurrent frames other with
              | some frames' => interpGo fuel rest frames' env
              | none => (.error (.abort .rPanic), env)
termination_by structural fuel _q _f _e => fuel

/-- `lcore_interpret`: start with the single implicit top-level frame
(lcore.rs lines 268-272) and consume the queue. -/
def lcore_interpret : Nat → List Value → Environment → BRes
  | 0, _, env => (.error (.abort .outOfFuel), env)
  | fuel + 1, queue, env => interpGo fuel queue [[]] env
termination_by structural fuel _q _e => fuel

/-- Call dispatch at a CloseFunc token (lcore.rs lines 395-457): a native
`Func` is applied to the arguments and environment directly (no scope is
pushed); a user-defined callable `Array [ParameterNames, Body]` pushes a
scope, binds the parameters (see `bindArgs`), runs the body through a
recursive evaluator invocation, and pops the scope after the body comes
back before passing its outcome on; the pop on the recoverable-error path
is modelled from the spec (section 4.3: pop unconditionally, on success or
on propagated failure — the src lcore.rs revision predates the recoverable
error channel and its single return path pops unconditionally), while a
panic keeps unwinding without the pop.  Any other callee evaluates to
Null with no error. -/
def dispatchCall : Nat → Value → List Value → Environment → BRes
  | 0, _, _, env => (.error (.abort .outOfFuel), env)
  | fuel + 1, funcv, callArgs, env =>
  match funcv with
  | .Func b =>
      match b with
      | .printF => lcore_print callArgs env
      | .prinF => lcore_prin callArgs env
      | .addF => lcore_add callArgs env
      | .quitF => lcore_quit callArgs env
      | .setF => lcore_set callArgs env
      | .loopF => lcore_loop fuel callArgs env
      | .defnF => lcore_defn callArgs env
      | .getF => lcore_get callArgs env
      | .dictF => lcore_dict callArgs env
      | .lenF => lcore_len callArgs env
      | .importF => lcore_import callArgs env
      | .swapF => lcore_swap callArgs env
      | .toStrF => lcore_to_str callArgs env
      | .eqF => lcore_equals callArgs env
      | .neqF => lcore_not_equals callArgs env
      | .orF => lcore_logical_or callArgs env
  | .Array a =>
      match a[0]? with
      | none => (.error (.abort .rPanic), env)
      | some first =>
          match first with
          | .Array argNames =>
              let env1 := env.push
              match bindArgs argNames callArgs.reverse 0 env1 with
              | none => (.error (.abort .rPanic), env1)
              | some env2 =>
                  match a[1]? with
                  | none => (.error (.abort .rPanic), env2)
                  | some second =>
                      match second with
                      | .Array body =>
                          match lcore_interpret fuel body env2 with
                          | (.ok v, env3) =>
                              match env3.pop with
                              | some (_, env4) => (.ok v, env4)
                              | none => (.error (.abort .rPanic), env3)
                          | (.error (.lcErr e), env3) =>
                              match env3.pop with
                              | some (_, env4) => (.error (.lcErr e), env4)
                              | none => (.error (.abort .rPanic), env3)
                          | (.error (.abort ab), env3) =>
                              (.error (.abort ab), env3)
                      | _ => (.error (.abort .rPanic), env2)
          | _ => (.error (.abort .rPanic), env)
  | _ => (.ok .Null, env)
termination_by structural fuel _v _c _e => fuel

/-- `lcore_loop` (builtin.rs lines 217-254): the three arguments are
fetched with `expect` (panic when missing), the iteration count is read
once with `as_int` (panic when not an Int; a negative count yields an
empty range), and the iterations run through `loopIter`. -/
def lcore_loop : Nat → List Value → Environment → BRes
  | 0, _, env => (.error (.abort .outOfFuel), env)
  | fuel + 1, args, env =>
  match args[0]?, args[1]?, args[2]? with
  | some quote, some iters, some body =>
      match iters with
      | .Int m => loopIter fuel quote body m.toNat 0 env
      | _ => (.error (.abort .rPanic), env)
  | _, _, _ => (.error (.abort .rPanic), env)
termination_by structural fuel _a _e => fuel

/-- The `for i in 0..iters` body of `lcore_loop` with `k` iterations left
and `i` the current index: per iteration the body must be a quoted Array
(`as_value`, panic otherwise), the quoted loop variable is bound to
`Int i` in the current innermost scope (a quoted non-identifier binds
nothing), the body runs through a recursive evaluator invocation, and a
recoverable error from the body is reported (printed) and the remaining
iterations continue, while a panic keeps unwinding. -/
def loopIter : Nat → Value → Value → Nat → Int → Environment → BRes
  | 0, _, _, _, _, env => (.error (.abort .outOfFuel), env)
  | fuel + 1, quote, body, k, i, env =>
  match k with
  | 0 => (.ok .Null, env)
  | k' + 1 =>
      match body with
      | .Quote bv =>
          match bv with
          | .Array v =>
              match quote with
              | .Quote qv =>
                  let step : Option Environment :=
                    match qv with
                    | .Identifier s => env.insert s (.Int i)
                    | _ => some env
                  match step with
                  | none => (.error (.abort .rPanic), env)
                  | some env1 =>
                      match lcore_interpret fuel v env1 with
                      | (.error (.abort ab), env2) => (.error (.abort ab), env2)
                      | (_, env2) => loopIter fuel quote body k' (i + 1) env2
              | _ => (.error (.abort .rPanic), env)
          | _ => (.error (.abort .rPanic), env)
      | _ => (.error (.abort .rPanic), env)
termination_by structural fuel _q _b _k _i _e => fuel

end

/-! ### Builtin registration and the initial environment -/

/-- The name-to-native-callable table installed by `import_builtins`
(builtin.rs lines 702-723), in source order. -/
def builtinTable : List (String × Value) :=
  [("print", .Func .printF), ("prin", .Func .prinF), ("+", .Func .addF),
   ("quit", .Func .quitF), ("exit", .Func .quitF), ("set", .Func .setF),
   ("loop", .Func .loopF), ("defn", .Func .defnF), ("get", .Func .getF),
   ("dict", .Func .dictF), ("len", .Func .lenF), ("import", .Func .importF),
   ("swap", .Func .swapF), ("to-str", .Func .toStrF), ("=", .Func .eqF),
   ("!=", .Func .neqF), ("or", .Func .orF)]

/-- `import_builtins` (builtin.rs lines 702-723): insert every builtin
into the current innermost scope (`none` on an empty scope stack, the
`insert` panic). -/
def import_builtins (env : Environment) : Option Environment :=
  builtinTable.foldlM (fun e kv => e.insert kv.1 kv.2) env

/-- The environment at the start of a run.  Modelled from the spec
(sections 4.2 and 6; the `main` entry point is repository code not under
src/): the global scope frame is created once at process start and the
builtin registry is installed into it before execution.  The fallback arm
is unreachable (the scope stack is nonempty). -/
def initialEnv : Environment :=
  match import_builtins ⟨[[]]⟩ with
  | some e => e
  | none => ⟨[[]]⟩

/-! ### The parse-to-IR converter (lcore.rs `lcore_parse`)

The pest parse tree is modelled by `ParseNode`, one constructor per node
kind of the grammar (spec section 4.1).  A `Function` node's first inner
pair is read only through `as_str`, so it is modelled as the callee
string.  `lcore_parse` appends tokens to the given stack and returns the
newline count; the `Except Abort` layer models the possible panics (the
`assert!` on a malformed Quote, `FromStr::unwrap` on a bad numeric
lexeme). -/

inductive ParseNode where
  | Program : List ParseNode → ParseNode
  | Function : String → List ParseNode → ParseNode
  | ArrayN : List ParseNode → ParseNode
  | QuoteN : List ParseNode → ParseNode
  | Number : String → ParseNode
  | IdentifierN : String → ParseNode
  | StringN : String → ParseNode
  | BooleanN : Bool → ParseNode
  | NullN : ParseNode
  | BackTickN : ParseNode
  | CommaN : ParseNode
  | NewLineN : ParseNode
  | EOIN : ParseNode

mutual

/-- `lcore_parse` (lcore.rs lines 166-257). -/
def lcore_parse (node : ParseNode) (stack : List Value) :
    Except Abort (Nat × List Value) :=
  match node with
  | .Program children => parseChildren children stack
  | .Function callee children =>
      match parseChildren children
          (stack ++ [Value.OpenFunc, Value.Identifier callee]) with
      | .ok (loc, st) => .ok (loc, st ++ [Value.CloseFunc])
      | .error a => .error a
  | .ArrayN children =>
      match parseChildren children [] with
      | .ok (loc, sub) => .ok (loc, stack ++ [Value.Array sub])
      | .error a => .error a
  | .QuoteN children =>
      match parseChildren children [] with
      | .ok (loc, sub) =>
          if sub.length = 1 then
            match sub.getLast? with
            | some v => .ok (loc, stack ++ [Value.Quote v])
            | none => .error .rPanic
          else .error .rPanic
      | .error a => .error a
  | .Number lexeme =>
      if lexeme.contains '.' then .ok (0, stack ++ [Value.Float ⟨lexeme⟩])
      else
        match lexeme.toInt? with
        | some i => .ok (0, stack ++ [Value.Int i])
        | none => .error .rPanic
  | .IdentifierN s => .ok (0, stack ++ [Value.Identifier s])
  | .StringN s => .ok (0, stack ++ [Value.String s])
  | .BooleanN b => .ok (0, stack ++ [Value.Boolean b])
  | .NullN => .ok (0, stack ++ [Value.Null])
  | .BackTickN => .ok (0, stack ++ [Value.BackTick])
  | .CommaN => .ok (0, stack ++ [Value.Comma])
  | .NewLineN => .ok (1, stack)
  | .EOIN => .ok (0, stack)

/-- The `for rule in node.into_inner()` recursion of `lcore_parse`,
accumulating the newline count. -/
def parseChildren (children : List ParseNode) (stack : List Value) :
    Except Abort (Nat × List Value) :=
  match children with
  | [] => .ok (0, stack)
  | n :: rest =>
      match lcore_parse n stack with
      | .ok (loc1, st1) =>
          match parseChildren rest st1 with
          | .ok (loc2, st2) => .ok (loc1 + loc2, st2)
          | .error a => .error a
      | .error a => .error a

end

/-! ### Helper predicates and environment lemmas -/

/-- A result that did not terminate the process (it is either a value or
a recoverable `LCoreError`). -/
def nonAbort : Except Fail Value → Bool
  | .error (.abort _) => false
  | _ => true

/-- Specification-side fold describing the environment evolution of
`lcore_loop` with `k` iterations left and current index `i`: each
iteration binds the loop variable `s` to `Int i` in the current innermost
scope and runs the body `b` through the evaluator, feeding the resulting
environment to the next iteration whatever the body's outcome was.  The
fuel is threaded exactly as `loopIter` threads it; the `getD` fallback is
never taken when the scope stack is nonempty. -/
def iterFrom : Nat → String → List Value → Nat → Int → Environment →
    Environment
  | 0, _, _, _, _, env => env
  | _ + 1, _, _, 0, _, env => env
  | fuel + 1, s, b, k + 1, i, env =>
      iterFrom fuel s b k (i + 1)
        (lcore_interpret fuel b
          ((env.insert s (.Int i)).getD env)).2

theorem Environment.insert_scopes_length {e e' : Environment} {k : String}
    {v : Value} (h : e.insert k v = some e') :
    e'.scopes.length = e.scopes.length := by
  cases e with
  | mk scopes =>
      cases scopes with
      | nil => simp [Environment.insert] at h
      | cons s rest =>
          simp [Environment.insert] at h
          rw [← h]
          simp

theorem Environment.pop_scopes_length {e e' : Environment} {s : SymTab}
    (h : e.pop = some (s, e')) :
    e'.scopes.length + 1 = e.scopes.length := by
  cases e with
  | mk scopes =>
      cases scopes with
      | nil => simp [Environment.pop] at h
      | cons t rest =>
          simp [Environment.pop] at h
          rw [← h.2]
          simp

theorem setScopesExisting_length (n : String) (v : Value) :
    ∀ l : List SymTab, (setScopesExisting n v l).length = l.length := by
  intro l
  induction l with
  | nil => rfl
  | cons s rest ih =>
      unfold setScopesExisting
      split <;> simp [ih]

theorem Environment.setExisting_scopes_length (e : Environment) (n : String)
    (v : Value) : (e.setExisting n v).scopes.length = e.scopes.length :=
  setScopesExisting_length n v e.scopes

theorem Environment.extend_scopes_length (e : Environment)
    (kvs : List (String × Value)) :
    (e.extend kvs).scopes.length = e.scopes.length := by
  unfold Environment.extend
  cases h : e.scopes.getLast? with
  | none => rfl
  | some g =>
      have hne : e.scopes ≠ [] := by
        intro hnil
        rw [hnil] at h
        simp at h
      have hpos : 0 < e.scopes.length := List.length_pos.mpr hne
      simp [List.length_dropLast]
      omega

theorem bindArgs_scopes_length :
    ∀ (revArgs names : List Value) (count : Nat) (env env' : Environment),
      bindArgs names revArgs count env = some env' →
      env'.scopes.length = env.scopes.length := by
  intro revArgs
  induction revArgs with
  | nil =>
      intro names count env env' h
      simp [bindArgs] at h
      rw [← h]
  | cons value restArgs ih =>
      intro names count env env' h
      unfold bindArgs at h
      cases hn : names[count]? with
      | none => rw [hn] at h; simp at h
      | some nv =>
          rw [hn] at h
          cases nv
          case Quote q =>
            cases q
            case Identifier s =>
              simp at h
              cases hins : env.insert s value with
              | none => rw [hins] at h; simp at h
              | some e1 =>
                  rw [hins] at h
                  simp at h
                  have := ih names (count + 1) e1 env' h
                  rw [this, Environment.insert_scopes_length hins]
            all_goals simp at h
          all_goals simp at h

/-! ### Builtins never change the scope depth -/

theorem lcore_print_scopes_length (args : List Value) (env : Environment) :
    (lcore_print args env).2.scopes.length = env.scopes.length := by
  unfold lcore_print
  try dsimp only
  repeat' split
  all_goals rfl

theorem lcore_prin_scopes_length (args : List Value) (env : Environment) :
    (lcore_prin args env).2.scopes.length = env.scopes.length := by
  unfold lcore_prin
  try dsimp only
  repeat' split
  all_goals rfl

theorem lcore_add_scopes_length (args : List Value) (env : Environment) :
    (lcore_add args env).2.scopes.length = env.scopes.length := by
  unfold lcore_add
  try dsimp only
  repeat' split
  all_goals rfl

theorem lcore_quit_scopes_length (args : List Value) (env : Environment) :
    (lcore_quit args env).2.scopes.length = env.scopes.length := rfl

theorem lcore_set_scopes_length (args : List Value) (env : Environment) :
    (lcore_set args env).2.scopes.length = env.scopes.length := by
  unfold lcore_set
  try dsimp only
  repeat' split
  all_goals
    first
    | rfl
    | (rename_i heq; exact Environment.insert_scopes_length heq)

theorem lcore_defn_scopes_length (args : List Value) (env : Environment) :
    (lcore_defn args env).2.scopes.length = env.scopes.length := by
  unfold lcore_defn
  try dsimp only
  repeat' split
  all_goals
    first
    | rfl
    | (rename_i heq; exact Environment.insert_scopes_length heq)

theorem lcore_get_scopes_length (args : List Value) (env : Environment) :
    (lcore_get args env).2.scopes.length = env.scopes.length := by
  unfold lcore_get
  try dsimp only
  repeat' split
  all_goals rfl

theorem lcore_dict_scopes_length (args : List Value) (env : Environment) :
    (lcore_dict args env).2.scopes.length = env.scopes.length := by
  unfold lcore_dict
  try dsimp only
  repeat' split
  all_goals rfl

theorem lcore_import_scopes_length (args : List Value) (env : Environment) :
    (lcore_import args env).2.scopes.length = env.scopes.length := by
  unfold lcore_import
  try dsimp only
  repeat' split
  all_goals first | rfl | simp [Environment.extend_scopes_length]

theorem lcore_len_scopes_length (args : List Value) (env : Environment) :
    (lcore_len args env).2.scopes.length = env.scopes.length := by
  unfold lcore_len
  try dsimp only
  repeat' split
  all_goals rfl

theorem lcore_equals_scopes_length (args : List Value) (env : Environment) :
    (lcore_equals args env).2.scopes.length = env.scopes.length := by
  unfold lcore_equals
  try dsimp only
  repeat' split
  all_goals rfl

theorem lcore_not_equals_scopes_length (args : List Value) (env : Environment) :
    (lcore_not_equals args env).2.scopes.length = env.scopes.length := by
  unfold lcore_not_equals
  try dsimp only
  repeat' split
  all_goals rfl

theorem lcore_logical_or_scopes_length (args : List Value) (env : Environment) :
    (lcore_logical_or args env).2.scopes.length = env.scopes.length := by
  unfold lcore_logical_or
  try dsimp only
  repeat' split
  all_goals rfl

theorem lcore_to_str_scopes_length (args : List Value) (env : Environment) :
    (lcore_to_str args env).2.scopes.length = env.scopes.length := rfl

theorem lcore_swap_scopes_length (args : List Value) (env : Environment) :
    (lcore_swap args env).2.scopes.length = env.scopes.length := by
  unfold lcore_swap
  try dsimp only
  repeat' split
  all_goals first | rfl | simp [Environment.setExisting_scopes_length]

/-! ### The evaluator never changes the scope depth of a run it survives

Every push of an Environment scope performed by the evaluator (only the
user-defined-callable dispatch pushes one) is paired with a pop on every
path that returns to the caller — the successful one and the
propagated-recoverable-error one — so any evaluator entry point that does
not abort the process preserves the scope depth.  Proved for all five
mutually recursive entry points at once, by induction on fuel. -/

theorem scope_depth_preserved : ∀ fuel : Nat,
    (∀ queue frames env, nonAbort (interpGo fuel queue frames env).1 = true →
      (interpGo fuel queue frames env).2.scopes.length = env.scopes.length) ∧
    (∀ queue env, nonAbort (lcore_interpret fuel queue env).1 = true →
      (lcore_interpret fuel queue env).2.scopes.length = env.scopes.length) ∧
    (∀ funcv callArgs env,
      nonAbort (dispatchCall fuel funcv callArgs env).1 = true →
      (dispatchCall fuel funcv callArgs env).2.scopes.length =
        env.scopes.length) ∧
    (∀ args env, nonAbort (lcore_loop fuel args env).1 = true →
      (lcore_loop fuel args env).2.scopes.length = env.scopes.length) ∧
    (∀ quote body k i env,
      nonAbort (loopIter fuel quote body k i env).1 = true →
      (loopIter fuel quote body k i env).2.scopes.length =
        env.scopes.length) := by
  intro fuel
  induction fuel with
  | zero =>
      refine ⟨?_, ?_, ?_, ?_, ?_⟩ <;> intros <;>
        simp_all [interpGo, lcore_interpret, dispatchCall, lcore_loop,
          loopIter, nonAbort]
  | succ f ih =>
      obtain ⟨ihGo, ihInterp, ihDispatch, ihLoop, ihLoopIter⟩ := ih
      refine ⟨?_, ?_, ?_, ?_, ?_⟩
      · -- interpGo
        intro queue frames env h
        cases queue with
        | nil =>
            cases frames with
            | nil => simp [interpGo, nonAbort] at h
            | cons top frest =>
                cases hl : top.getLast? with
                | none => simp [interpGo, hl, nonAbort] at h
                | some v => simp [interpGo, hl]
        | cons node rest =>
            cases node
            case Identifier name =>
              cases frames with
              | nil => simp [interpGo, nonAbort] at h
              | cons top frest =>
                  cases hl : top.getLast? with
                  | none =>
                      cases hc : env.contains_key name with
                      | false => simp [interpGo, hl, hc, nonAbort] at h
                      | true =>
                          cases hg : env.get name with
                          | none => simp [interpGo, hl, hc, hg, nonAbort] at h
                          | some w =>
                              simp only [interpGo, hl, hc, hg] at h ⊢
                              simp at h ⊢
                              exact ihGo rest _ env h
                  | some v =>
                      cases v
                      case Quote q =>
                        simp only [interpGo, hl] at h ⊢
                        exact ihGo rest _ env h
                      all_goals
                        (cases hc : env.contains_key name with
                         | false => simp [interpGo, hl, hc, nonAbort] at h
                         | true =>
                             cases hg : env.get name with
                             | none =>
                                 simp [interpGo, hl, hc, hg, nonAbort] at h
                             | some w =>
                                 simp only [interpGo, hl, hc, hg] at h ⊢
                                 simp at h ⊢
                                 exact ihGo rest _ env h)
            case OpenFunc =>
              simp only [interpGo] at h ⊢
              exact ihGo rest ([] :: frames) env h
            case OpenBrace =>
              simp only [interpGo] at h ⊢
              exact ihGo rest ([] :: frames) env h
            case Func b =>
              simp only [interpGo] at h ⊢
              exact ihGo rest frames env h
            case Dict d =>
              simp only [interpGo] at h ⊢
              exact ihGo rest frames env h
            case CloseBrace =>
              cases frames with
              | nil => simp [interpGo, nonAbort] at h
              | cons top frest =>
                  cases frest with
                  | nil => simp [interpGo, nonAbort] at h
                  | cons t2 f2 =>
                      simp only [interpGo] at h ⊢
                      exact ihGo rest _ env h
            case CloseFunc =>
              cases frames with
              | nil => simp [interpGo, nonAbort] at h
              | cons top frest =>
                  cases top with
                  | nil => simp [interpGo, nonAbort] at h
                  | cons funcv callArgs =>
                      cases hd : dispatchCall f funcv callArgs env with
                      | mk r env' =>
                          have h2 := ihDispatch funcv callArgs env
                          rw [hd] at h2
                          cases r with
                          | ok ret =>
                              cases frest with
                              | nil => simp [interpGo, hd, nonAbort] at h
                              | cons t2 f2 =>
                                  simp only [interpGo, hd] at h ⊢
                                  have h1 := ihGo rest ((t2 ++ [ret]) :: f2)
                                    env' h
                                  simp [nonAbort] at h2
                                  omega
                          | error e =>
                              cases e with
                              | lcErr le =>
                                  simp only [interpGo, hd] at h ⊢
                                  simp [nonAbort] at h2
                                  simpa using h2
                              | abort a =>
                                  simp [interpGo, hd, nonAbort] at h
            all_goals
              (cases frames with
               | nil => simp [interpGo, pushCurrent, nonAbort] at h
               | cons top frest =>
                   simp only [interpGo, pushCurrent] at h ⊢
                   exact ihGo rest _ env h)
      · -- lcore_interpret
        intro queue env h
        simp only [lcore_interpret] at h ⊢
        exact ihGo queue [[]] env h
      · -- dispatchCall
        intro funcv callArgs env h
        cases funcv
        case Func b =>
          cases b <;> simp only [dispatchCall] at h ⊢
          case printF => exact lcore_print_scopes_length callArgs env
          case prinF => exact lcore_prin_scopes_length callArgs env
          case addF => exact lcore_add_scopes_length callArgs env
          case quitF => exact lcore_quit_scopes_length callArgs env
          case setF => exact lcore_set_scopes_length callArgs env
          case loopF => exact ihLoop callArgs env h
          case defnF => exact lcore_defn_scopes_length callArgs env
          case getF => exact lcore_get_scopes_length callArgs env
          case dictF => exact lcore_dict_scopes_length callArgs env
          case lenF => exact lcore_len_scopes_length callArgs env
          case importF => exact lcore_import_scopes_length callArgs env
          case swapF => exact lcore_swap_scopes_length callArgs env
          case toStrF => exact lcore_to_str_scopes_length callArgs env
          case eqF => exact lcore_equals_scopes_length callArgs env
          case neqF => exact lcore_not_equals_scopes_length callArgs env
          case orF => exact lcore_logical_or_scopes_length callArgs env
        case Array a =>
          simp only [dispatchCall] at h ⊢
          cases ha0 : a[0]? with
          | none => simp [ha0, nonAbort] at h
          | some first =>
              simp only [ha0] at h ⊢
              cases first
              case Array argNames =>
                cases hb : bindArgs argNames callArgs.reverse 0 env.push with
                | none => simp [hb, nonAbort] at h
                | some env2 =>
                    simp only [hb] at h ⊢
                    have hb2 := bindArgs_scopes_length _ _ _ _ _ hb
                    have hpush : (Environment.push env).scopes.length =
                        env.scopes.length + 1 := rfl
                    cases ha1 : a[1]? with
                    | none => simp [ha1, nonAbort] at h
                    | some second =>
                        simp only [ha1] at h ⊢
                        cases second
                        case Array body =>
                          cases hi : lcore_interpret f body env2 with
                          | mk r env3 =>
                              have h3 := ihInterp body env2
                              rw [hi] at h3
                              cases r with
                              | ok v =>
                                  simp [nonAbort] at h3
                                  cases hp : env3.pop with
                                  | none => simp [hi, hp, nonAbort] at h
                                  | some pe =>
                                      obtain ⟨s, env4⟩ := pe
                                      have h4 :=
                                        Environment.pop_scopes_length hp
                                      simp only [hi, hp] at h ⊢
                                      try simp
                                      omega
                              | error e =>
                                  cases e with
                                  | lcErr le =>
                                      simp [nonAbort] at h3
                                      cases hp : env3.pop with
                                      | none =>
                                          simp [hi, hp, nonAbort] at h
                                      | some pe =>
                                          obtain ⟨s, env4⟩ := pe
                                          have h4 :=
                                            Environment.pop_scopes_length hp
                                          simp only [hi, hp] at h ⊢
                                          try simp
                                          omega
                                  | abort a2 =>
                                      simp [hi, nonAbort] at h
                        all_goals simp [nonAbort] at h
              all_goals simp [nonAbort] at h
        all_goals simp [dispatchCall]
      · -- lcore_loop
        intro args env h
        simp only [lcore_loop] at h ⊢
        cases h0 : args[0]? with
        | none => simp [h0, nonAbort] at h
        | some quote =>
            cases h1 : args[1]? with
            | none => simp [h0, h1, nonAbort] at h
            | some iters =>
                cases h2 : args[2]? with
                | none => simp [h0, h1, h2, nonAbort] at h
                | some body =>
                    simp only [h0, h1, h2] at h ⊢
                    cases iters
                    case Int m => exact ihLoopIter quote body m.toNat 0 env h
                    all_goals simp [nonAbort] at h
      · -- loopIter
        intro quote body k i env h
        cases k with
        | zero => simp [loopIter]
        | succ k' =>
            cases body
            case Quote bv =>
              cases bv
              case Array v =>
                cases quote
                case Quote qv =>
                  cases qv
                  case Identifier s =>
                    cases hins : env.insert s (.Int i) with
                    | none => simp [loopIter, hins, nonAbort] at h
                    | some env1 =>
                        have hlen1 := Environment.insert_scopes_length hins
                        cases hi : lcore_interpret f v env1 with
                        | mk r env2 =>
                            have h3 := ihInterp v env1
                            rw [hi] at h3
                            cases r with
                            | ok vv =>
                                simp [nonAbort] at h3
                                simp only [loopIter, hins, hi] at h ⊢
                                have h4 := ihLoopIter _ _ k' (i + 1) env2 h
                                omega
                            | error e =>
                                cases e with
                                | lcErr le =>
                                    simp [nonAbort] at h3
                                    simp only [loopIter, hins, hi] at h ⊢
                                    have h4 := ihLoopIter _ _ k' (i + 1) env2 h
                                    omega
                                | abort a =>
                                    simp [loopIter, hins, hi, nonAbort] at h
                  all_goals
                    (cases hi : lcore_interpret f v env with
                     | mk r env2 =>
                         have h3 := ihInterp v env
                         rw [hi] at h3
                         cases r with
                         | ok vv =>
                             simp [nonAbort] at h3
                             simp only [loopIter, hi] at h ⊢
                             have h4 := ihLoopIter _ _ k' (i + 1) env2 h
                             omega
                         | error e =>
                             cases e with
                             | lcErr le =>
                                 simp [nonAbort] at h3
                                 simp only [loopIter, hi] at h ⊢
                                 have h4 := ihLoopIter _ _ k' (i + 1) env2 h
                                 omega
                             | abort a =>
                                 simp [loopIter, hi, nonAbort] at h)
                all_goals simp [loopIter, nonAbort] at h
              all_goals simp [loopIter, nonAbort] at h
            all_goals simp [loopIter, nonAbort] at h

/-! ### Arithmetic of the Rust remainder wrap used by `lcore_get`/`lcore_swap` -/

theorem neg_tmod_left (x n : Int) : Int.tmod (-x) n = -(Int.tmod x n) := by
  rw [Int.tmod_def, Int.tmod_def, Int.neg_tdiv]
  ring

/-- The two-step Rust computation `idx = a % n; if idx < 0 { idx += n }`
(truncated remainder plus shift) equals the Euclidean remainder for a
positive modulus. -/
theorem tmod_adjust_eq_emod (a n : Int) (h : 0 < n) :
    (if Int.tmod a n < 0 then Int.tmod a n + n else Int.tmod a n) =
      a % n := by
  have hkey : Int.tmod a n % n = a % n := by
    conv_rhs => rw [← Int.tmod_add_tdiv a n]
    rw [Int.add_mul_emod_self_left]
  have htlt : Int.tmod a n < n := Int.tmod_lt_of_pos a h
  have hlb : -n < Int.tmod a n := by
    rcases le_or_lt 0 a with ha | ha
    · have := Int.tmod_nonneg n ha
      omega
    · have h1 : Int.tmod a n = -(Int.tmod (-a) n) := by
        rw [← neg_tmod_left]
        simp
      have h2 : Int.tmod (-a) n < n := Int.tmod_lt_of_pos _ h
      have h3 : 0 ≤ Int.tmod (-a) n := Int.tmod_nonneg n (by omega)
      omega
  by_cases hc : Int.tmod a n < 0
  · rw [if_pos hc]
    have h5 : (Int.tmod a n + n) % n = a % n := by
      rw [← hkey]
      have h6 := Int.add_mul_emod_self_left (Int.tmod a n) n 1
      rw [mul_one] at h6
      exact h6
    rw [← h5, Int.emod_eq_of_lt (by omega) (by omega)]
  · rw [if_neg hc]
    rw [← hkey, Int.emod_eq_of_lt (by omega) (by omega)]

theorem Environment.insert_isSome (e : Environment) (k : String) (v : Value)
    (h : e.scopes ≠ []) : ∃ e', e.insert k v = some e' := by
  cases e with
  | mk scopes =>
      cases scopes with
      | nil => simp at h
      | cons s rest => exact ⟨_, rfl⟩

/-- Characterisation of `loopIter` on well-formed arguments: with a quoted
identifier as loop variable, a quoted Array as body, enough fuel and a
nonempty scope stack, and no iteration aborting the process, the loop
returns Null and the environment evolves by the `iterFrom` fold — in
particular a recoverable error in one iteration's body does not stop the
remaining iterations. -/
theorem loopIter_ok (s : String) (b : List Value) :
    ∀ (k fuel : Nat) (i : Int) (env : Environment),
      k < fuel →
      env.scopes ≠ [] →
      (∀ j : Nat, j < k →
        nonAbort (lcore_interpret (fuel - 1 - j) b
          (((iterFrom fuel s b j i env).insert s (.Int (i + j))).getD
            (iterFrom fuel s b j i env))).1 = true) →
      loopIter fuel (Value.Quote (Value.Identifier s))
        (Value.Quote (Value.Array b)) k i env =
        (.ok Value.Null, iterFrom fuel s b k i env) := by
  intro k
  induction k with
  | zero =>
      intro fuel i env hfuel hne hna
      cases fuel with
      | zero => omega
      | succ f => simp [loopIter, iterFrom]
  | succ k' ih =>
      intro fuel i env hfuel hne hna
      cases fuel with
      | zero => omega
      | succ f =>
          obtain ⟨env1, hins⟩ := Environment.insert_isSome env s (.Int i) hne
          have hna0 := hna 0 (by omega)
          simp only [iterFrom, Nat.cast_zero, add_zero, Nat.sub_zero,
            Nat.add_sub_cancel, hins, Option.getD_some] at hna0
          cases hi : lcore_interpret f b env1 with
          | mk r env2 =>
              have hnaR : nonAbort r = true := by
                rw [hi] at hna0
                simpa using hna0
              have hlen2 : env2.scopes.length = env1.scopes.length := by
                have hdepth := (scope_depth_preserved f).2.1 b env1
                rw [hi] at hdepth
                exact hdepth hnaR
              have hne2 : env2.scopes ≠ [] := by
                have := Environment.insert_scopes_length hins
                intro hnil
                rw [hnil] at hlen2
                simp at hlen2
                have hok : env.scopes.length ≠ 0 :=
                  fun hz => hne (List.eq_nil_of_length_eq_zero hz)
                omega
              have hstep : iterFrom (f + 1) s b (k' + 1) i env =
                  iterFrom f s b k' (i + 1) env2 := by
                simp only [iterFrom, hins, Option.getD_some, hi]
              have hnaShift : ∀ j : Nat, j < k' →
                  nonAbort (lcore_interpret (f - 1 - j) b
                    (((iterFrom f s b j (i + 1) env2).insert s
                        (.Int ((i + 1) + j))).getD
                      (iterFrom f s b j (i + 1) env2))).1 = true := by
                intro j hj
                have hshift : iterFrom (f + 1) s b (j + 1) i env =
                    iterFrom f s b j (i + 1) env2 := by
                  simp only [iterFrom, hins, Option.getD_some, hi]
                have := hna (j + 1) (by omega)
                rw [hshift] at this
                have harith : f + 1 - 1 - (j + 1) = f - 1 - j := by omega
                rw [harith] at this
                have hcast : i + ((j : Int) + 1) = (i + 1) + (j : Int) := by
                  ring
                simp only [Nat.cast_add, Nat.cast_one] at this
                rw [hcast] at this
                exact this
              have hrec := ih f (i + 1) env2 (by omega) hne2 hnaShift
              rw [hstep, ← hrec]
              simp only [loopIter, hins, hi]
              cases r with
              | ok v => rfl
              | error e =>
                  cases e with
                  | lcErr le => rfl
                  | abort a => simp [nonAbort] at hnaR

/-! ### The claims -/

/-- C1: the claim states that user-defined call dispatch binds the i-th
parameter name to the i-th argument (positional order), so that a function
with parameters `[a, b]` and body `(+ a b)` called with `(3, 4)` returns
Int 7.  The second conjunct shows the Int 7 result (which holds only
because addition commutes); the first conjunct evaluates the same call
shape with body `a` — under positional binding it would return Int 3, but
the code consumes arguments from the end of the list (`v.pop()`) while
walking parameter names from the front, so `a` receives the *last*
argument and the program returns Int 4.  This shows the positional-order
sentence is false of the code. -/
theorem user_call_binds_arguments_reversed :
    (lcore_interpret 50
      [Value.OpenFunc, Value.Identifier "defn",
       Value.Quote (Value.Identifier "f"),
       Value.Array [Value.Quote (Value.Identifier "a"),
                    Value.Quote (Value.Identifier "b")],
       Value.Quote (Value.Array [Value.Identifier "a"]), Value.CloseFunc,
       Value.OpenFunc, Value.Identifier "f", Value.Int 3, Value.Int 4,
       Value.CloseFunc] initialEnv).1 = .ok (Value.Int 4) ∧
    (lcore_interpret 50
      [Value.OpenFunc, Value.Identifier "defn",
       Value.Quote (Value.Identifier "f"),
       Value.Array [Value.Quote (Value.Identifier "a"),
                    Value.Quote (Value.Identifier "b")],
       Value.Quote (Value.Array
         [Value.OpenFunc, Value.Identifier "+", Value.Identifier "a",
          Value.Identifier "b", Value.CloseFunc]), Value.CloseFunc,
       Value.OpenFunc, Value.Identifier "f", Value.Int 3, Value.Int 4,
       Value.CloseFunc] initialEnv).1 = .ok (Value.Int 7) :=
  ⟨rfl, rfl⟩

/-- C2: the claim states that interpreting an empty IR queue returns Null.
In the code the final `arrays.pop().unwrap()` / `v.pop().unwrap()`
(lcore.rs lines 513-517) pops the last value of the outermost frame, and
on an empty program that frame is empty, so the `unwrap` panics — the
evaluator aborts instead of returning Null, for every environment and any
sufficient fuel. -/
theorem empty_program_panics (env : Environment) (fuel : Nat) :
    (lcore_interpret (fuel + 2) [] env).1 = .error (.abort .rPanic) :=
  rfl

/-- C3: the claim states that an Identifier token (not deferred by a
preceding Quote in the current frame) whose name is bound in no scope
fails with a *recoverable* NameError.  The code instead calls
`crash(..)`, which prints and terminates the whole process with
`exit(1)` (lcore.rs lines 154-157 and 325-345): the outcome is the
non-recoverable `crash` abort carrying the "Undefined Variable" message,
not an `LCoreError.NameError` result. -/
theorem unbound_identifier_crashes (fuel : Nat) (name : String)
    (rest top : List Value) (frest : List (List Value)) (env : Environment)
    (hq : ∀ q, top.getLast? ≠ some (Value.Quote q))
    (hun : env.contains_key name = false) :
    interpGo (fuel + 1) (Value.Identifier name :: rest) (top :: frest) env =
      (.error (.abort (.crash
        ("Undefined Variable: No variable named \"" ++ name ++ "\""))),
       env) := by
  cases hl : top.getLast? with
  | none => simp [interpGo, hl, hun]
  | some v =>
      cases v
      case Quote q => exact absurd hl (hq q)
      all_goals simp [interpGo, hl, hun]

/-- Witness for C3 at a concrete input: the one-token program `nosuch`
run in the initial environment terminates the process with the crash
message, not with a recoverable error. -/
theorem unbound_identifier_crashes_witness :
    interpGo 6 [Value.Identifier "nosuch"] [[]] initialEnv =
      (.error (.abort (.crash
        "Undefined Variable: No variable named \"nosuch\"")), initialEnv) :=
  unbound_identifier_crashes 5 "nosuch" [] [] [] initialEnv
    (by intro q h; simp at h) (by rfl)

/-- C4: `get` on an Array with an Int key: an index strictly beyond the
array length (`index > len`) is a recoverable ArgumentError, and any other
index — negative or equal to the length — is wrapped modulo the array
length (Euclidean remainder) before retrieval. -/
theorem lcore_get_array_int_bounds (v : List Value) (k : Int)
    (env : Environment) (hlen : 0 < v.length) :
    ((v.length : Int) < k →
      (lcore_get [Value.Array v, Value.Int k] env).1 =
        .error (.lcErr (.ArgumentError
          ("Index out of bounds: got " ++ toString k ++ " but len is " ++
           toString v.length)))) ∧
    (k ≤ (v.length : Int) →
      (lcore_get [Value.Array v, Value.Int k] env).1 =
        .ok ((v[(k % (v.length : Int)).toNat]?).getD Value.Null)) := by
  constructor
  · intro hgt
    simp only [lcore_get, List.getElem?_cons_zero, List.getElem?_cons_succ]
    rw [if_pos hgt]
  · intro hle
    have h0 : (0 : Int) < (v.length : Int) := by exact_mod_cast hlen
    have hadj := tmod_adjust_eq_emod k (v.length : Int) h0
    have hmlt : k % (v.length : Int) < (v.length : Int) :=
      Int.emod_lt_of_pos k h0
    have hmnn : (0 : Int) ≤ k % (v.length : Int) :=
      Int.emod_nonneg k (by omega)
    have htn : (k % (v.length : Int)).toNat < v.length := by omega
    simp only [lcore_get, List.getElem?_cons_zero, List.getElem?_cons_succ]
    rw [if_neg (not_lt.mpr hle), if_neg (by omega : ¬v.length = 0)]
    rw [hadj, List.getElem?_eq_getElem htn]
    simp

/-- Witness for C4: indexing the 3-element array `[10, 20, 30]` at
position 1 returns its second element, Int 20. -/
theorem lcore_get_array_int_bounds_witness :
    (lcore_get [Value.Array [Value.Int 10, Value.Int 20, Value.Int 30],
      Value.Int 1] initialEnv).1 = .ok (Value.Int 20) := by
  have h := (lcore_get_array_int_bounds
    [Value.Int 10, Value.Int 20, Value.Int 30] 1 initialEnv
    (by decide)).2 (by decide)
  exact h.trans rfl

/-- C5: a Quote parse node requires its recursively converted sub-queue
to hold exactly one value.  The single-value case emits one Quote token
wrapping that value (second conjunct), but a zero-value or two-value
sub-queue trips `assert!(quote_stack.len() == 1)` (lcore.rs line 233),
which is a process-terminating panic, not a recoverable structural
ParseError (the recoverable error type has no constructor for it, and the
converter returns no error channel at all). -/
theorem quote_parse_asserts (stack : List Value) :
    lcore_parse (.QuoteN []) stack = .error .rPanic ∧
    (∀ s, lcore_parse (.QuoteN [.IdentifierN s]) stack =
      .ok (0, stack ++ [Value.Quote (Value.Identifier s)])) ∧
    (∀ s t, lcore_parse (.QuoteN [.IdentifierN s, .IdentifierN t]) stack =
      .error .rPanic) :=
  ⟨rfl, fun _ => rfl, fun _ _ => rfl⟩

/-- C6: `Environment::insert` always writes into the innermost frame:
after pushing a fresh scope and inserting `name`, the binding is found by
`get` (innermost-first search) shadowing any outer binding, and popping
the pushed scope returns *exactly* the original environment, so the outer
binding of `name` (and everything else) is unchanged. -/
theorem environment_insert_shadowing (env : Environment) (name : String)
    (v : Value) :
    ∃ e' frame,
      (Environment.push env).insert name v = some e' ∧
      e'.get name = some v ∧
      e'.pop = some (frame, env) := by
  refine ⟨⟨symtabInsert [] name v :: env.scopes⟩, symtabInsert [] name v,
    rfl, ?_, rfl⟩
  simp [Environment.get, symtabInsert, symtabGet]

/-- C7: `loop` with a quoted iteration variable, an Int iteration count
`n` and a quoted Array body returns Null, and the environment evolves by
the `iterFrom` fold: every iteration `j = 0, 1, ..., n-1` binds the
variable to `Int j` in the current innermost (enclosing) scope and then
runs the body once — with no assumption that the body succeeds, so an
iteration whose body yields a recoverable error is merely reported and
the remaining iterations still run.  Hypotheses: enough fuel, a nonempty
scope stack, and no iteration aborting the host process. -/
theorem lcore_loop_iterates (fuel : Nat) (s : String) (n : Int)
    (b : List Value) (env : Environment)
    (hfuel : n.toNat < fuel) (hne : env.scopes ≠ [])
    (hna : ∀ j : Nat, j < n.toNat →
      nonAbort (lcore_interpret (fuel - 1 - j) b
        (((iterFrom fuel s b j 0 env).insert s (.Int j)).getD
          (iterFrom fuel s b j 0 env))).1 = true) :
    lcore_loop (fuel + 1)
      [Value.Quote (Value.Identifier s), Value.Int n,
       Value.Quote (Value.Array b)] env =
      (.ok Value.Null, iterFrom fuel s b n.toNat 0 env) := by
  simp only [lcore_loop, List.getElem?_cons_zero, List.getElem?_cons_succ]
  exact loopIter_ok s b n.toNat fuel 0 env hfuel hne
    (by intro j hj; simpa using hna j hj)

/-- Witness for C7: a loop over 3 iterations whose body `(dict 1)` raises
a recoverable ArgumentError on every iteration still performs all three
iterations (the final environment is the full 3-step fold, which leaves
the iteration variable bound to Int 2) and returns Null. -/
theorem lcore_loop_iterates_witness :
    lcore_loop 51
      [Value.Quote (Value.Identifier "i"), Value.Int 3,
       Value.Quote (Value.Array
         [Value.OpenFunc, Value.Identifier "dict", Value.Int 1,
          Value.CloseFunc])] initialEnv =
      (.ok Value.Null,
       iterFrom 50 "i"
         [Value.OpenFunc, Value.Identifier "dict", Value.Int 1,
          Value.CloseFunc] 3 0 initialEnv) :=
  lcore_loop_iterates 50 "i" 3
    [Value.OpenFunc, Value.Identifier "dict", Value.Int 1, Value.CloseFunc]
    initialEnv (by decide)
    (by intro h; exact absurd (congrArg List.length h) (by decide))
    (by
      intro j hj
      have hj3 : j < 3 := by omega
      interval_cases j <;> rfl)

/-- C8: constructing a dictionary from `('a, 1, 'b, 2)` stores the quoted
symbols under their canonical String form (first conjunct shows the
construction result), `get` with quoted symbol `a` looks the canonical
form up again and returns Int 1 (second conjunct), and the same round
trip holds end to end through the evaluator for the program
`(get (dict 'a 1 'b 2) 'a)` (third conjunct). -/
theorem dict_roundtrip :
    (lcore_dict [Value.Quote (Value.Identifier "a"), Value.Int 1,
      Value.Quote (Value.Identifier "b"), Value.Int 2] initialEnv).1 =
      .ok (Value.Dict [(Value.String "a", Value.Int 1),
                       (Value.String "b", Value.Int 2)]) ∧
    (lcore_get [Value.Dict [(Value.String "a", Value.Int 1),
                            (Value.String "b", Value.Int 2)],
      Value.Quote (Value.Identifier "a")] initialEnv).1 =
      .ok (Value.Int 1) ∧
    (lcore_interpret 50
      [Value.OpenFunc, Value.Identifier "get",
       Value.OpenFunc, Value.Identifier "dict",
       Value.Quote (Value.Identifier "a"), Value.Int 1,
       Value.Quote (Value.Identifier "b"), Value.Int 2, Value.CloseFunc,
       Value.Quote (Value.Identifier "a"), Value.CloseFunc]
      initialEnv).1 = .ok (Value.Int 1) :=
  ⟨rfl, rfl, rfl⟩

/-- C9: dispatching a user-defined callable (an `Array`-shaped callee)
pushes one Environment scope and pops it again on every path that returns
to the caller — body success and propagated recoverable error alike — so
whenever the dispatch does not abort the process, the scope depth after
the call equals the depth before it. -/
theorem user_callable_scope_balanced (fuel : Nat) (a : List Value)
    (callArgs : List Value) (env : Environment) (r : Except Fail Value)
    (env' : Environment)
    (hd : dispatchCall fuel (Value.Array a) callArgs env = (r, env'))
    (hna : nonAbort r = true) :
    env'.scopes.length = env.scopes.length := by
  have h := (scope_depth_preserved fuel).2.2.1 (Value.Array a) callArgs env
  rw [hd] at h
  exact h hna

/-- Witness for C9: dispatching the callable `[['a], [a]]` (one parameter,
body returning it) on the argument `1` in the initial environment returns
with the scope depth unchanged. -/
theorem user_callable_scope_balanced_witness :
    (dispatchCall 10
      (Value.Array [Value.Array [Value.Quote (Value.Identifier "a")],
                    Value.Array [Value.Identifier "a"]])
      [Value.Int 1] initialEnv).2.scopes.length =
      initialEnv.scopes.length :=
  user_callable_scope_balanced 10
    [Value.Array [Value.Quote (Value.Identifier "a")],
     Value.Array [Value.Identifier "a"]]
    [Value.Int 1] initialEnv _ _ rfl (by rfl)

/-- C10: at a CloseFunc token, when the first element of the completed
frame is neither a native `Func` nor an `Array`-shaped user-defined
callable, the dispatch falls into the `_ => Value::Null` arm (lcore.rs
line 456): it evaluates to Null with the environment untouched and no
error of any kind — the Null is then pushed as the call's result by the
generic success path. -/
theorem non_callable_call_yields_null (fuel : Nat) (funcv : Value)
    (callArgs : List Value) (env : Environment)
    (hf : ∀ b, funcv ≠ Value.Func b) (ha : ∀ a, funcv ≠ Value.Array a) :
    dispatchCall (fuel + 1) funcv callArgs env = (.ok Value.Null, env) := by
  cases funcv
  case Func b => exact absurd rfl (hf b)
  case Array a => exact absurd rfl (ha a)
  all_goals rfl

/-- Witness for C10: calling the Int 5 as a function, `(5)`, dispatches
to Null with no error; the full program `(5)` evaluates to Null. -/
theorem non_callable_call_yields_null_witness :
    dispatchCall 10 (Value.Int 5) [] initialEnv =
      (.ok Value.Null, initialEnv) :=
  non_callable_call_yields_null 9 (Value.Int 5) [] initialEnv
    (fun _ h => Value.noConfusion h) (fun _ h => Value.noConfusion h)

end LambdaCore
